import Mathlib

/-! Shallow embedding of the denormalization engine of `denorm/fields.py`.

Rows are identified by primary keys (`Nat`); field values are integers.
The surrounding ORM is abstracted: the database is a pair of total maps
from primary key to value (`dnm` is the denormalized column the engine
writes, `src` is every other stored datum, which the engine only reads),
a queryset is a finite set of primary keys, and `instance.save()` is the
write of the instance's denormalized value to the database together with
the lifecycle notifications the save fires.  The development is scoped to
a single registered rule (a registry `alldenorms = [R]` with one entry),
so the handlers fired by a save are the connected handlers of that rule. -/

/-- The stored database as seen by one rule: `dnm` is the denormalized
column (indexed by primary key), `src` is all other stored data. -/
structure DB where
  src : Nat → Int
  dnm : Nat → Int

/-- Configuration of one denormalization rule (class `Denorm`):
`func` is the value-computation function (`self.func`, reading the row and
the rest of the database), `depend` is `self.func.depend`, the list of
dependency resolvers, each mapping the current database and the queryset of
changed source rows to the queryset of owning-type rows to refresh
(`dependency.resolve(changed_objs)`), and `saveFails` models the
environment: persisting row `p` raises an exception iff `saveFails p`. -/
structure Denorm where
  func : DB → Nat → Int
  depend : List (DB → Finset Nat → Finset Nat)
  saveFails : Nat → Bool

/-- Engine state threaded through the handlers: the database, the rule's
`self.updating` set of primary keys currently in flight, the optional
`self.qs` attribute (`none` models the attribute being absent, i.e.
deleted or never assigned), and a log of persistence calls: every
`instance.save()` appends the saved primary key paired with the contents
of `updating` at the moment of the save. -/
structure ESt where
  db : DB
  updating : List Nat
  qs : Option (Finset Nat)
  saveLog : List (Nat × List Nat)

/-- Result of a run of the engine: normal return, an exception propagating
to the caller (carrying the state at the moment it escaped), or fuel
exhaustion of the embedding. -/
inductive URes where
  | ok (st : ESt)
  | err (st : ESt)
  | out

/-- Write value `v` into the denormalized column of row `p`. -/
def writeDnm (db : DB) (p : Nat) (v : Int) : DB :=
  ⟨db.src, fun q => if q = p then v else db.dnm q⟩

/-- Fold of `self.qs |= dependency.resolve(changed_objs)` over all
resolvers in `depend`, starting from the queryset `init`. -/
def depsUnion (R : Denorm) (db : DB) (init : Finset Nat) (changed : Finset Nat) : Finset Nat :=
  R.depend.foldl (fun acc d => acc ∪ d db changed) init

/-- Iteration order of `qs.distinct()`: the elements of the impact set in
increasing primary-key order (insertion sort keeps the definition
kernel-computable). -/
def sortImpact (s : Finset Nat) : List Nat :=
  Quotient.lift (fun l : List Nat => List.insertionSort (· ≤ ·) l)
    (fun a b h => List.eq_of_perm_of_sorted
      ((List.perm_insertionSort _ a).trans ((h : List.Perm a b).trans
        (List.perm_insertionSort _ b).symm))
      (List.sorted_insertionSort _ a) (List.sorted_insertionSort _ b)) s.val

/-- `Denorm.pre_update_handler`: stores the pre-mutation impact set,
`self.qs = self.model.objects.none()` followed by
`self.qs |= dependency.resolve(changed_objs)` for every resolver. -/
def Denorm.pre_update_handler (R : Denorm) (st : ESt) (changed : Finset Nat) : ESt :=
  ⟨st.db, st.updating, some (depsUnion R st.db ∅ changed), st.saveLog⟩

/-- `Denorm.pre_handler`: wraps `pre_update_handler` with
`changed_objs = sender.objects.filter(pk=instance.pk)`. -/
def Denorm.pre_handler (R : Denorm) (st : ESt) (p : Nat) : ESt :=
  R.pre_update_handler st {p}

/-- The impact set `Denorm.post_update_handler` passes to `self.update`:
`self.qs` (defaulting to the empty queryset when the attribute is absent,
the `hasattr` check) extended with `dependency.resolve(changed_objs)` for
every resolver, evaluated against the current (post-mutation) database. -/
def Denorm.postImpact (R : Denorm) (st : ESt) (changed : Finset Nat) : Finset Nat :=
  depsUnion R st.db (st.qs.getD ∅) changed

/-- `Denorm.self_save_handler`: before an instance of the owning model is
persisted, set its denormalized field to `self.func(instance)` unless its
primary key is in `self.updating`; returns the field value the instance
carries into the save (`v` is the value it had before the handler ran). -/
def Denorm.self_save_handler (R : Denorm) (st : ESt) (p : Nat) (v : Int) : Int :=
  if p ∉ st.updating then R.func st.db p else v

/-- `Denorm.update`: for every row of the (distinct) queryset, skip it if
its primary key is in `self.updating`; otherwise compute the new value and,
only if it differs from the stored value, set the field, add the key to
`updating`, save the instance, and remove the key again.  The save is
modelled faithfully as: append to the persistence log; raise if the
environment makes this save fail; fire `pre_save` (the rule's own
`pre_handler`, then `self_save_handler`, which is a no-op here because the
key is in `updating`); write the row to the database; fire `post_save`
(the rule's `post_handler`: extend `self.qs` with the resolvers' results
on the post-write database, recursively `self.update(self.qs)`, and delete
`self.qs` only when `updating` is empty, which it is not during a save).
`fuel` bounds the recursion depth of the embedding; every step consumes
one unit, and `.out` marks exhaustion. -/
def Denorm.update (R : Denorm) : Nat → ESt → List Nat → URes
  | 0, _, _ => .out
  | _ + 1, st, [] => .ok st
  | fuel + 1, st, p :: rest =>
    if p ∈ st.updating then
      Denorm.update R fuel st rest
    else
      let nv := R.func st.db p
      if st.db.dnm p = nv then
        Denorm.update R fuel st rest
      else
        let stA : ESt := ⟨st.db, p :: st.updating, st.qs, st.saveLog ++ [(p, p :: st.updating)]⟩
        if R.saveFails p then .err stA
        else
          let stB : ESt := R.pre_handler stA p
          let stC : ESt := ⟨writeDnm stB.db p nv, stB.updating, stB.qs, stB.saveLog⟩
          let qs2 : Finset Nat := R.postImpact stC {p}
          match Denorm.update R fuel ⟨stC.db, stC.updating, some qs2, stC.saveLog⟩ (sortImpact qs2) with
          | .ok stE =>
            let stF : ESt := if stE.updating = [] then ⟨stE.db, stE.updating, none, stE.saveLog⟩ else stE
            Denorm.update R fuel ⟨stF.db, stF.updating.erase p, stF.qs, stF.saveLog⟩ rest
          | e => e

/-- `Denorm.post_update_handler`: default `self.qs` to empty if absent,
extend it with every resolver's result against the current database, store
it back, call `self.update(self.qs)`, and afterwards delete `self.qs`
unless `self.updating` is nonempty. -/
def Denorm.post_update_handler (R : Denorm) (fuel : Nat) (st : ESt) (changed : Finset Nat) : URes :=
  let qs1 := R.postImpact st changed
  match Denorm.update R fuel ⟨st.db, st.updating, some qs1, st.saveLog⟩ (sortImpact qs1) with
  | .ok st2 =>
    .ok (if st2.updating = [] then ⟨st2.db, st2.updating, none, st2.saveLog⟩ else st2)
  | e => e

/-- `Denorm.post_handler`: wraps `post_update_handler` with
`changed_objs = sender.objects.filter(pk=instance.pk)`. -/
def Denorm.post_handler (R : Denorm) (fuel : Nat) (st : ESt) (p : Nat) : URes :=
  R.post_update_handler fuel st {p}

/-- `Denorm.self_update_handler`: `self.update(changed_objs)`. -/
def Denorm.self_update_handler (R : Denorm) (fuel : Nat) (st : ESt) (changed : List Nat) : URes :=
  R.update fuel st changed

/-- `rebuildall`: for the (single-rule) registry, run
`denorm.update(denorm.model.objects.all())`, where `allRows` is the list
of all primary keys of the owning model. -/
def rebuildall (R : Denorm) (fuel : Nat) (st : ESt) (allRows : List Nat) : URes :=
  R.update fuel st allRows

/-- Lifecycle notification channels the engine connects to. -/
inductive SigKind where
  | pre_save
  | post_save
  | pre_delete
  | post_delete
  | pre_update
  | post_update
deriving DecidableEq

/-- The handlers of one rule that can be connected to a channel. -/
inductive HandlerKind where
  | pre_h
  | post_h
  | pre_update_h
  | post_update_h
  | self_save_h
  | self_update_h
deriving DecidableEq

/-- One `connect` call: channel, handler, and optional sender restriction
(`none` means the handler receives the events of every model). -/
structure SigConn where
  signal : SigKind
  handler : HandlerKind
  sender : Option Nat
deriving DecidableEq

/-- `Denorm.setup`: the `connect` calls it performs, in order, for a rule
whose owning model is `model`.  The resolvers' own `setup` calls create no
connections, and no connection depends on the resolvers. -/
def Denorm.setup (model : Nat) : List SigConn :=
  [⟨.pre_save, .pre_h, none⟩,
   ⟨.post_save, .post_h, none⟩,
   ⟨.pre_delete, .pre_h, none⟩,
   ⟨.post_delete, .post_h, none⟩,
   ⟨.pre_update, .pre_update_h, none⟩,
   ⟨.post_update, .post_update_h, none⟩,
   ⟨.pre_save, .self_save_h, some model⟩,
   ⟨.post_update, .self_update_h, some model⟩]

/-- Handlers invoked, in connection order, when channel `sig` fires for a
mutation of model `sender`: a connection matches when it has no sender
restriction or its restriction equals the mutated model. -/
def fires (conns : List SigConn) (sig : SigKind) (sender : Nat) : List HandlerKind :=
  (conns.filter (fun c => decide (c.signal = sig ∧ (c.sender = none ∨ c.sender = some sender)))).map
    (fun c => c.handler)

/-- Project the state out of a normally returning run (fallback state for
the impossible branches). -/
def extractOk : URes → ESt
  | .ok st => st
  | .err st => st
  | .out => ⟨⟨fun _ => 0, fun _ => 0⟩, [], none, []⟩

/-- Number of persistence calls recorded in the state of a run. -/
def logLen : URes → Nat
  | .ok st => st.saveLog.length
  | .err st => st.saveLog.length
  | .out => 0

/-- Whether a run returned normally. -/
def isOk : URes → Bool
  | .ok _ => true
  | _ => false

theorem update_zero (R : Denorm) (st : ESt) (qs : List Nat) :
    Denorm.update R 0 st qs = .out := rfl

theorem update_nil (R : Denorm) (fuel : Nat) (st : ESt) :
    Denorm.update R (fuel + 1) st [] = .ok st := rfl

theorem update_cons_mem (R : Denorm) (fuel : Nat) (st : ESt) (p : Nat) (rest : List Nat)
    (h : p ∈ st.updating) :
    Denorm.update R (fuel + 1) st (p :: rest) = Denorm.update R fuel st rest := by
  simp [Denorm.update, h]

theorem update_cons_eq (R : Denorm) (fuel : Nat) (st : ESt) (p : Nat) (rest : List Nat)
    (h : st.db.dnm p = R.func st.db p) :
    Denorm.update R (fuel + 1) st (p :: rest) = Denorm.update R fuel st rest := by
  by_cases hm : p ∈ st.updating
  · simp [Denorm.update, hm]
  · simp [Denorm.update, hm, h]

theorem update_ok_spec (R : Denorm) :
    ∀ (fuel : Nat) (st : ESt) (qs : List Nat) (st' : ESt),
      Denorm.update R fuel st qs = .ok st' →
      st'.updating = st.updating ∧
      st'.db.src = st.db.src ∧
      (st.qs.isSome = true → st'.qs.isSome = true) ∧
      ∃ l, st'.saveLog = st.saveLog ++ l ∧ ∀ e ∈ l, e.1 ∉ st.updating ∧ e.1 ∈ e.2 := by
  intro fuel
  induction fuel with
  | zero =>
    intro st qs st' h
    exact absurd h (by simp [Denorm.update])
  | succ fuel ih =>
    intro st qs st' h
    cases qs with
    | nil =>
      have h' : URes.ok st = URes.ok st' := h
      cases h'
      exact ⟨rfl, rfl, fun hq => hq, [], by simp, by simp⟩
    | cons p rest =>
      simp only [Denorm.update] at h
      by_cases hm : p ∈ st.updating
      · rw [if_pos hm] at h
        exact ih st rest st' h
      · rw [if_neg hm] at h
        by_cases he : st.db.dnm p = R.func st.db p
        · rw [if_pos he] at h
          exact ih st rest st' h
        · rw [if_neg he] at h
          by_cases hsf : R.saveFails p = true
          · rw [if_pos hsf] at h
            cases h
          · rw [if_neg hsf] at h
            split at h
            case _ stE hE =>
              obtain ⟨hU, hS, hQ, l2, hL, hl2⟩ := ih _ _ _ hE
              simp only [Denorm.pre_handler, Denorm.pre_update_handler, writeDnm] at hU hS hL hl2
              have hne2 : stE.updating ≠ [] := by
                rw [hU]; exact List.cons_ne_nil _ _
              rw [if_neg hne2] at h
              obtain ⟨hU', hS', hQ', l3, hL', hl3⟩ := ih _ _ _ h
              refine ⟨?_, ?_, ?_, (p, p :: st.updating) :: (l2 ++ l3), ?_, ?_⟩
              · rw [hU', hU, List.erase_cons_head]
              · rw [hS', hS]
              · intro _
                exact hQ' (hQ rfl)
              · rw [hL', hL]
                simp
              · intro e hme
                rcases List.mem_cons.mp hme with rfl | hme2
                · exact ⟨hm, List.mem_cons_self _ _⟩
                · rcases List.mem_append.mp hme2 with hme3 | hme3
                  · obtain ⟨hn, hin⟩ := hl2 e hme3
                    exact ⟨fun hc => hn (List.mem_cons_of_mem _ hc), hin⟩
                  · obtain ⟨hn, hin⟩ := hl3 e hme3
                    rw [hU, List.erase_cons_head] at hn
                    exact ⟨hn, hin⟩
            case _ =>
              rename_i hv hne
              exact absurd h (hne st')

theorem writeDnm_fixed_self (R : Denorm)
    (HF : ∀ db1 db2 q, db1.src = db2.src → R.func db1 q = R.func db2 q)
    (db : DB) (p : Nat) :
    (writeDnm db p (R.func db p)).dnm p = R.func (writeDnm db p (R.func db p)) p := by
  have hf : R.func (writeDnm db p (R.func db p)) p = R.func db p := HF _ _ p rfl
  rw [hf]
  simp [writeDnm]

theorem writeDnm_fixed_keep (R : Denorm)
    (HF : ∀ db1 db2 q, db1.src = db2.src → R.func db1 q = R.func db2 q)
    (db : DB) (p r : Nat) (hr : db.dnm r = R.func db r) :
    (writeDnm db p (R.func db p)).dnm r = R.func (writeDnm db p (R.func db p)) r := by
  have hf : R.func (writeDnm db p (R.func db p)) r = R.func db r := HF _ _ r rfl
  rw [hf]
  by_cases hrp : r = p
  · subst hrp
    simp [writeDnm]
  · simpa [writeDnm, hrp] using hr

theorem update_ok_fixed (R : Denorm)
    (HF : ∀ db1 db2 q, db1.src = db2.src → R.func db1 q = R.func db2 q) :
    ∀ (fuel : Nat) (st : ESt) (qs : List Nat) (st' : ESt),
      Denorm.update R fuel st qs = .ok st' →
      ∀ q, st.db.dnm q = R.func st.db q → st'.db.dnm q = R.func st'.db q := by
  intro fuel
  induction fuel with
  | zero =>
    intro st qs st' h
    exact absurd h (by simp [Denorm.update])
  | succ fuel ih =>
    intro st qs st' h
    cases qs with
    | nil =>
      have h' : URes.ok st = URes.ok st' := h
      cases h'
      exact fun q hq => hq
    | cons p rest =>
      simp only [Denorm.update] at h
      by_cases hm : p ∈ st.updating
      · rw [if_pos hm] at h
        exact ih _ _ _ h
      · rw [if_neg hm] at h
        by_cases he : st.db.dnm p = R.func st.db p
        · rw [if_pos he] at h
          exact ih _ _ _ h
        · rw [if_neg he] at h
          by_cases hsf : R.saveFails p = true
          · rw [if_pos hsf] at h
            cases h
          · rw [if_neg hsf] at h
            split at h
            case _ stE hE =>
              simp only [Denorm.pre_handler, Denorm.pre_update_handler] at h hE
              have hU := (update_ok_spec R _ _ _ _ hE).1
              have hne2 : stE.updating ≠ [] := by
                rw [hU]; exact List.cons_ne_nil _ _
              rw [if_neg hne2] at h
              intro q hq
              exact ih _ _ _ h q (ih _ _ _ hE q (writeDnm_fixed_keep R HF st.db p q hq))
            case _ =>
              rename_i hv hne
              exact absurd h (hne st')

theorem update_top_fixed (R : Denorm)
    (HF : ∀ db1 db2 q, db1.src = db2.src → R.func db1 q = R.func db2 q) :
    ∀ (fuel : Nat) (st : ESt) (qs : List Nat) (st' : ESt),
      st.updating = [] → Denorm.update R fuel st qs = .ok st' →
      ∀ q ∈ qs, st'.db.dnm q = R.func st'.db q := by
  intro fuel
  induction fuel with
  | zero =>
    intro st qs st' h0 h
    exact absurd h (by simp [Denorm.update])
  | succ fuel ih =>
    intro st qs st' h0 h
    cases qs with
    | nil =>
      intro q hq
      cases hq
    | cons p rest =>
      simp only [Denorm.update] at h
      by_cases hm : p ∈ st.updating
      · rw [h0] at hm
        cases hm
      · rw [if_neg hm] at h
        by_cases he : st.db.dnm p = R.func st.db p
        · rw [if_pos he] at h
          intro q hq
          rcases List.mem_cons.mp hq with rfl | hq2
          · exact update_ok_fixed R HF _ _ _ _ h q he
          · exact ih _ _ _ h0 h q hq2
        · rw [if_neg he] at h
          by_cases hsf : R.saveFails p = true
          · rw [if_pos hsf] at h
            cases h
          · rw [if_neg hsf] at h
            split at h
            case _ stE hE =>
              simp only [Denorm.pre_handler, Denorm.pre_update_handler] at h hE
              have hU := (update_ok_spec R _ _ _ _ hE).1
              have hne2 : stE.updating ≠ [] := by
                rw [hU]; exact List.cons_ne_nil _ _
              rw [if_neg hne2] at h
              have hrest0 : stE.updating.erase p = [] := by
                rw [hU, List.erase_cons_head, h0]
              intro q hq
              rcases List.mem_cons.mp hq with rfl | hq2
              · have h1 := update_ok_fixed R HF _ _ _ _ hE q (writeDnm_fixed_self R HF st.db q)
                exact update_ok_fixed R HF _ _ _ _ h q h1
              · exact ih _ _ _ hrest0 h q hq2
            case _ =>
              rename_i hv hne
              exact absurd h (hne st')

theorem update_fixed_noop (R : Denorm) :
    ∀ (qs : List Nat) (fuel : Nat) (st : ESt),
      (∀ q ∈ qs, st.db.dnm q = R.func st.db q) → qs.length < fuel →
      Denorm.update R fuel st qs = .ok st := by
  intro qs
  induction qs with
  | nil =>
    intro fuel st hfix hlt
    cases fuel with
    | zero => exact absurd hlt (by simp)
    | succ f => exact update_nil R f st
  | cons p rest ih =>
    intro fuel st hfix hlt
    cases fuel with
    | zero => exact absurd hlt (by simp)
    | succ f =>
      rw [update_cons_eq R f st p rest (hfix p (List.mem_cons_self _ _))]
      exact ih f st (fun q hq => hfix q (List.mem_cons_of_mem _ hq))
        (by simp only [List.length_cons] at hlt; omega)

/-- A rule whose computed value always equals the stored value (identity
on the denormalized column), with no resolvers and reliable saves. -/
def Rid : Denorm := ⟨fun db p => db.dnm p, [], fun _ => false⟩

/-- A rule that always computes 1 and whose saves always raise. -/
def Rfail : Denorm := ⟨fun _ _ => 1, [], fun _ => true⟩

/-- The empty engine state over an all-zero database. -/
def st0 : ESt := ⟨⟨fun _ => 0, fun _ => 0⟩, [], none, []⟩

/-- An engine state with row 7 currently in flight. -/
def stIn7 : ESt := ⟨⟨fun _ => 0, fun _ => 0⟩, [7], none, []⟩

/-- C1: if `computeFn(row)` equals the row's currently stored value, the
row's `update` step performs no persistence call, fires no further
lifecycle notification, and leaves the updating-set (and all engine state)
unmodified: the step is the same as if the row were absent, and on a
single-row queryset `update` returns the entry state unchanged. -/
theorem C1_no_write_on_no_change (R : Denorm) (st : ESt) (p : Nat)
    (h : R.func st.db p = st.db.dnm p) :
    (∀ fuel rest, Denorm.update R (fuel + 1) st (p :: rest) = Denorm.update R fuel st rest) ∧
    (∀ fuel, Denorm.update R (fuel + 2) st [p] = .ok st) := by
  constructor
  · intro fuel rest
    exact update_cons_eq R fuel st p rest h.symm
  · intro fuel
    rw [update_cons_eq R (fuel + 1) st p [] h.symm]
    exact update_nil R fuel st

/-- Witness for C1 at a concrete rule and state. -/
theorem C1_witness : Denorm.update Rid 2 st0 [0] = .ok st0 :=
  (C1_no_write_on_no_change Rid st0 0 rfl).2 0

/-- C2: a row whose identifier is in the updating-set when `update`
examines it is skipped entirely (the step equals the run without that
row), and while a row is in the updating-set no run that returns normally
ever records a persistence call for it: within one cascade the engine
never re-enters recomputation-and-save for an in-flight row identifier. -/
theorem C2_cycle_guard_skip (R : Denorm) (st : ESt) (p : Nat) (h : p ∈ st.updating) :
    (∀ fuel rest, Denorm.update R (fuel + 1) st (p :: rest) = Denorm.update R fuel st rest) ∧
    (∀ fuel qs st', Denorm.update R fuel st qs = .ok st' →
      ∃ l, st'.saveLog = st.saveLog ++ l ∧ ∀ e ∈ l, e.1 ≠ p) := by
  constructor
  · intro fuel rest
    exact update_cons_mem R fuel st p rest h
  · intro fuel qs st' hok
    obtain ⟨-, -, -, l, hL, hl⟩ := update_ok_spec R fuel st qs st' hok
    refine ⟨l, hL, fun e he hc => (hl e he).1 ?_⟩
    rw [hc]
    exact h

/-- Witness for C2 at a concrete rule and state. -/
theorem C2_witness : Denorm.update Rid 1 stIn7 [7] = Denorm.update Rid 0 stIn7 [] :=
  (C2_cycle_guard_skip Rid stIn7 7 (by decide)).1 0 []

/-- C6: a row identifier is in the updating-set exactly during its own
recomputation-and-save: every recorded persistence call shows the saved
identifier inside the updating-set at the moment of the save, a normally
returning `update` restores the updating-set to its entry value, and a row
is skipped entirely while its identifier is a member. -/
theorem C6_updating_window (R : Denorm) (fuel : Nat) (st : ESt) (qs : List Nat) (st' : ESt)
    (hlog : ∀ e ∈ st.saveLog, e.1 ∈ e.2)
    (h : Denorm.update R fuel st qs = .ok st') :
    st'.updating = st.updating ∧
    (∀ e ∈ st'.saveLog, e.1 ∈ e.2) ∧
    (∀ p rest fuel2, p ∈ st'.updating →
      Denorm.update R (fuel2 + 1) st' (p :: rest) = Denorm.update R fuel2 st' rest) := by
  obtain ⟨hU, -, -, l, hL, hl⟩ := update_ok_spec R fuel st qs st' h
  refine ⟨hU, ?_, ?_⟩
  · intro e he
    rw [hL] at he
    rcases List.mem_append.mp he with h1 | h1
    · exact hlog e h1
    · exact (hl e h1).2
  · intro p rest fuel2 hp
    exact update_cons_mem R fuel2 st' p rest hp

/-- Witness for C6 at a concrete run. -/
theorem C6_witness :
    st0.updating = st0.updating ∧ (∀ e ∈ st0.saveLog, e.1 ∈ e.2) ∧
    (∀ p rest fuel2, p ∈ st0.updating →
      Denorm.update Rid (fuel2 + 1) st0 (p :: rest) = Denorm.update Rid fuel2 st0 rest) :=
  C6_updating_window Rid 1 st0 [] st0 (by simp [st0]) rfl

/-- C8: when an owning-type instance is saved directly and its identifier
is not in the updating-set, the self pre-save handler sets the
denormalized field on the instance to `computeFn(instance)` before it is
persisted; when the identifier is in the updating-set the handler leaves
the instance unchanged. -/
theorem C8_self_save (R : Denorm) (st : ESt) (p : Nat) (v : Int) :
    (p ∉ st.updating → R.self_save_handler st p v = R.func st.db p) ∧
    (p ∈ st.updating → R.self_save_handler st p v = v) := by
  constructor
  · intro h
    simp [Denorm.self_save_handler, h]
  · intro h
    simp [Denorm.self_save_handler, h]

/-- Witness for C8 at concrete states on both sides of the guard. -/
theorem C8_witness :
    Rid.self_save_handler st0 3 99 = Rid.func st0.db 3 ∧
    Rid.self_save_handler stIn7 7 99 = 99 :=
  ⟨(C8_self_save Rid st0 3 99).1 (by decide), (C8_self_save Rid stIn7 7 99).2 (by decide)⟩

/-- C10: when the persistence call of a row raises after the row's
identifier was added to the updating-set, the exception propagates to the
caller, the identifier is never removed from the updating-set, and every
subsequent recomputation of that row by this rule is silently skipped. -/
theorem C10_error_keeps_updating (R : Denorm) (st : ESt) (p : Nat)
    (hm : p ∉ st.updating) (hne : st.db.dnm p ≠ R.func st.db p)
    (hsf : R.saveFails p = true) :
    ∀ fuel rest, ∃ st',
      Denorm.update R (fuel + 1) st (p :: rest) = .err st' ∧
      p ∈ st'.updating ∧
      st'.updating = p :: st.updating ∧
      (∀ fuel2 rest2, Denorm.update R (fuel2 + 1) st' (p :: rest2) =
        Denorm.update R fuel2 st' rest2) := by
  intro fuel rest
  refine ⟨⟨st.db, p :: st.updating, st.qs, st.saveLog ++ [(p, p :: st.updating)]⟩, ?_,
    List.mem_cons_self _ _, rfl, ?_⟩
  · simp [Denorm.update, hm, hne, hsf]
  · intro fuel2 rest2
    exact update_cons_mem R fuel2 _ p rest2 (List.mem_cons_self _ _)

/-- Witness for C10 at a concrete failing save. -/
theorem C10_witness :
    ∃ st', Denorm.update Rfail 1 st0 [4] = .err st' ∧
      4 ∈ st'.updating ∧
      st'.updating = 4 :: st0.updating ∧
      (∀ fuel2 rest2, Denorm.update Rfail (fuel2 + 1) st' (4 :: rest2) =
        Denorm.update Rfail fuel2 st' rest2) :=
  C10_error_keeps_updating Rfail st0 4 (by decide) (by decide) rfl 0 []

theorem foldl_union_eq {α : Type} (g : α → Finset Nat) :
    ∀ (l : List α) (init : Finset Nat),
      l.foldl (fun acc d => acc ∪ g d) init = init ∪ l.foldl (fun acc d => acc ∪ g d) ∅ := by
  intro l
  induction l with
  | nil =>
    intro init
    simp
  | cons d ds ih =>
    intro init
    simp only [List.foldl_cons]
    rw [ih (init ∪ g d), ih (∅ ∪ g d)]
    simp [Finset.union_assoc]

theorem depsUnion_init (R : Denorm) (db : DB) (init changed : Finset Nat) :
    depsUnion R db init changed = init ∪ depsUnion R db ∅ changed := by
  unfold depsUnion
  exact foldl_union_eq (fun d => d db changed) R.depend init

/-- C3: for a mutation whose pre-phase handler ran on the pre-mutation
database and whose post-phase handler runs on the post-mutation database,
the impact set the post-phase passes to `update` is exactly the union of
the resolver results computed against the pre-mutation state and the
resolver results computed against the post-mutation state. -/
theorem C3_pre_post_union (R : Denorm) (stPre : ESt) (dbPost : DB) (changed : Finset Nat) :
    R.postImpact { R.pre_update_handler stPre changed with db := dbPost } changed =
      depsUnion R stPre.db ∅ changed ∪ depsUnion R dbPost ∅ changed := by
  simp only [Denorm.postImpact, Denorm.pre_update_handler, Option.getD_some]
  exact depsUnion_init R dbPost (depsUnion R stPre.db ∅ changed) changed

/-- C4 counterexample: for a rule with no resolvers, a pre-phase over the
changed owning-type row 5 stores the empty impact set; the owning type's
own matching row is not included, contradicting the claim that it is
unioned in as an identity dependency. -/
theorem C4_counterexample :
    (Rid.pre_update_handler st0 {5}).qs = some ∅ ∧ 5 ∉ (∅ : Finset Nat) := by
  constructor
  · rfl
  · decide

/-- C4 amended: the stored pre-mutation impact set equals exactly the
union of every resolver's results on the changed rows, starting from the
empty queryset; the owning type's own matching rows are not added (the
identity case is covered by the separately connected self handlers). -/
theorem C4_pre_impact (R : Denorm) (st : ESt) (changed : Finset Nat) :
    (R.pre_update_handler st changed).qs = some (depsUnion R st.db ∅ changed) := rfl

/-- C9: when the post-phase handler returns normally, the stored
pre-mutation impact set has been cleared if and only if the rule's
updating-set was empty (no recomputation in flight); and when no
pre-phase ran (`self.qs` absent), the impact set defaults to the empty
queryset before the post-phase union. -/
theorem C9_qs_cleared_iff (R : Denorm) (fuel : Nat) (st : ESt) (changed : Finset Nat) (st' : ESt)
    (h : R.post_update_handler fuel st changed = .ok st') :
    (st'.qs = none ↔ st.updating = []) ∧
    (st.qs = none → R.postImpact st changed = depsUnion R st.db ∅ changed) := by
  constructor
  · simp only [Denorm.post_update_handler] at h
    split at h
    case _ st2 hE =>
      obtain ⟨hU, -, hQ, -⟩ := update_ok_spec R _ _ _ _ hE
      injection h with h2
      by_cases hup : st2.updating = []
      · rw [if_pos hup] at h2
        rw [← h2]
        constructor
        · intro _
          rw [← hU, hup]
        · intro _
          rfl
      · rw [if_neg hup] at h2
        rw [← h2]
        constructor
        · intro hc
          have := hQ rfl
          rw [hc] at this
          cases this
        · intro hc
          rw [← hU] at hc
          exact absurd hc hup
    case _ =>
      rename_i hv hne
      exact absurd h (hne st')
  · intro h0
    simp [Denorm.postImpact, h0]

/-- Witness for C9 at a concrete run of the post-phase handler. -/
theorem C9_witness :
    ((extractOk (Rid.post_update_handler 1 st0 ∅)).qs = none ↔ st0.updating = []) ∧
    (st0.qs = none → Rid.postImpact st0 ∅ = depsUnion Rid st0.db ∅ ∅) :=
  C9_qs_cleared_iff Rid 1 st0 ∅ (extractOk (Rid.post_update_handler 1 st0 ∅)) rfl

/-- C5 counterexample: for a rule owned by model 0 (and with no resolver
source types), a pre-save and a pre-update of the unrelated model 1 still
invoke the rule's generic pre-change handlers, because `setup` connects
them with no sender restriction. -/
theorem C5_counterexample :
    HandlerKind.pre_h ∈ fires (Denorm.setup 0) SigKind.pre_save 1 ∧
    HandlerKind.pre_update_h ∈ fires (Denorm.setup 0) SigKind.pre_update 1 := by
  decide

/-- C5 amended: registration connects the generic pre/post change
handlers to the pre-save, post-save, pre-delete, post-delete, pre-update
and post-update events of every model (no sender filter); only the
self-save handler and the self-update handler are restricted to the
owning model, so mutations of unrelated types do invoke the generic
handlers. -/
theorem C5_connections (m0 m : Nat) :
    fires (Denorm.setup m0) .pre_save m =
      [.pre_h] ++ (if m = m0 then [.self_save_h] else []) ∧
    fires (Denorm.setup m0) .post_save m = [.post_h] ∧
    fires (Denorm.setup m0) .pre_delete m = [.pre_h] ∧
    fires (Denorm.setup m0) .post_delete m = [.post_h] ∧
    fires (Denorm.setup m0) .pre_update m = [.pre_update_h] ∧
    fires (Denorm.setup m0) .post_update m =
      [.post_update_h] ++ (if m = m0 then [.self_update_h] else []) := by
  by_cases hm : m = m0
  · subst hm
    simp [fires, Denorm.setup]
  · have hm2 : ¬(m0 = m) := fun hc => hm hc.symm
    simp [fires, Denorm.setup, hm, hm2]

/-- The other row of the two-row cyclic example. -/
def otherPk (p : Nat) : Nat := if p = 1 then 2 else 1

/-- Rule for the C7 counterexample: the computed value of each of rows 1
and 2 reads the other row's denormalized value (a pure function of the
stored state forming a dependency cycle), the single resolver maps a
change of either row to the other, and saves never fail. -/
def Rcyc : Denorm :=
  ⟨fun db p => max (db.dnm (otherPk p) - 1) 0,
   [fun _ changed => (if 1 ∈ changed then {2} else ∅) ∪ (if 2 ∈ changed then {1} else ∅)],
   fun _ => false⟩

/-- Initial state for the C7 counterexample: rows 1 and 2 store 5 and 7. -/
def stCyc : ESt := ⟨⟨fun _ => 0, fun p => if p = 1 then 5 else if p = 2 then 7 else 0⟩, [], none, []⟩

/-- C7 counterexample: with the cyclic rule `Rcyc` (whose computeFn is a
pure function of the stored state), the first `rebuildall` over rows 1 and
2 returns normally after two persistence calls, yet the immediately
repeated `rebuildall`, with no external mutation in between, performs two
further persistence calls: the cycle guard left row 1 stale after the
first pass, so the second pass is not write-free. -/
theorem C7_counterexample :
    isOk (rebuildall Rcyc 9 stCyc [1, 2]) = true ∧
    logLen (rebuildall Rcyc 9 stCyc [1, 2]) = 2 ∧
    isOk (rebuildall Rcyc 9 (extractOk (rebuildall Rcyc 9 stCyc [1, 2])) [1, 2]) = true ∧
    logLen (rebuildall Rcyc 9 (extractOk (rebuildall Rcyc 9 stCyc [1, 2])) [1, 2]) = 4 := by
  decide

/-- C7 amended: when `computeFn` reads only non-denormalized data (its
value does not depend on the denormalized column), a second `rebuildall`
immediately after a normally returning first one performs no persistence
call at all: it returns the state unchanged.  The unrestricted claim
fails when `computeFn` reads denormalized values across a dependency
cycle, where the cycle guard can leave a row stale after the first call. -/
theorem C7_idempotent_src_only (R : Denorm) (fuel fuel2 : Nat) (st st1 : ESt)
    (allRows : List Nat)
    (HF : ∀ db1 db2 q, db1.src = db2.src → R.func db1 q = R.func db2 q)
    (h0 : st.updating = [])
    (h1 : rebuildall R fuel st allRows = .ok st1)
    (hfuel : allRows.length < fuel2) :
    rebuildall R fuel2 st1 allRows = .ok st1 := by
  unfold rebuildall at h1 ⊢
  exact update_fixed_noop R allRows fuel2 st1
    (fun q hq => update_top_fixed R HF fuel st allRows st1 h0 h1 q hq) hfuel

/-- Rule whose computed value reads only the source column. -/
def Rsrc : Denorm := ⟨fun db p => db.src p + 1, [], fun _ => false⟩

/-- Initial state for the C7 witness: source column is the identity. -/
def stSrc : ESt := ⟨⟨fun p => (p : Int), fun _ => 0⟩, [], none, []⟩

/-- Witness for the amended C7 at a concrete source-only rule. -/
theorem C7_witness :
    rebuildall Rsrc 9 (extractOk (rebuildall Rsrc 9 stSrc [1, 2])) [1, 2] =
      .ok (extractOk (rebuildall Rsrc 9 stSrc [1, 2])) :=
  C7_idempotent_src_only Rsrc 9 9 stSrc (extractOk (rebuildall Rsrc 9 stSrc [1, 2])) [1, 2]
    (fun db1 db2 q hsrc => by simp [Rsrc, hsrc]) rfl rfl (by decide)
